import Mathlib

/-!
Verification of the treehacks2026 hospital scheduler core.

Shallow embedding of the allocation and rotation-scheduling code from
`src/my_crew/src/my_crew/csv_pipeline.py` and
`src/my_crew/src/my_crew/tools/greedy_allocation_tool.py`.

Modelling conventions:
* Python floats are modelled as rationals (`ℚ`); all arithmetic and
  comparisons performed by the code on these values are exact on the
  inputs considered.
* Python lists of dicts are modelled as lists of structures; in-place
  mutation is modelled by state passing, except where a claim is about
  aliasing itself, in which case an explicit heap (list of cells addressed
  by index) is used.
* `None` / a missing key and the `-1` sentinel are written out exactly as
  the code reads them; where the code treats `None`, a missing key and
  `-1` identically (room occupancy), the model uses the `-1` sentinel.
-/

namespace Hosp

/-- A bookable room, `{"id": str, "start": float, "stop": float}` from
`csv_pipeline.py`.  `start = stop = -1` is the never-booked sentinel. -/
structure Room where
  id : String
  start : ℚ
  stop : ℚ
deriving DecidableEq, Repr

/-- Placeholder room used for out-of-range `getD` reads; never actually
read by the functions below on their reachable indices. -/
def defaultRoom : Room := ⟨"", -1, -1⟩

/-- `next_avail = 0.0 if (stop is None or stop == -1) else float(stop)`
(`assign_room`, csv_pipeline.py line 125).  The code treats `None`, a
missing key and `-1` identically; all are modelled by the `-1` sentinel. -/
def nextAvail (r : Room) : ℚ := if r.stop = -1 then 0 else r.stop

/-- The search loop of `assign_room` (csv_pipeline.py lines 121-128):
running first-strict-minimum of `next_avail` over the pool, carrying the
index, the room and its next-available time.  `none` plays the role of the
initial `best_next = float("inf")`. -/
def findBest : List Room → Nat → Option (Nat × Room × ℚ) → Option (Nat × Room × ℚ)
  | [], _, best => best
  | r :: rs, i, best =>
    match best with
    | none => findBest rs (i + 1) (some (i, r, nextAvail r))
    | some (j, b, bn) =>
      if nextAvail r < bn then findBest rs (i + 1) (some (i, r, nextAvail r))
      else findBest rs (i + 1) (some (j, b, bn))

/-- `assign_room(rooms, length_of_stay_hours)` (csv_pipeline.py lines
110-135).  Returns the booked `(room_id, start, stop)` (or `none`) together
with the updated pool; the in-place mutation of the chosen room is modelled
by `List.set`. -/
def assign_room (rooms : List Room) (lengthOfStayHours : ℚ) :
    Option (String × ℚ × ℚ) × List Room :=
  if lengthOfStayHours ≤ 0 then (none, rooms)
  else
    match findBest rooms 0 none with
    | none => (none, rooms)
    | some (i, r, na) =>
      (some (r.id, na, na + lengthOfStayHours),
       rooms.set i { r with start := na, stop := na + lengthOfStayHours })

/-- One patient record `{"id": pid, "room": -1, "start": -1, "stop": -1}`
(csv_pipeline.py line 315); `room = none` models the `-1` sentinel. -/
structure Patient where
  id : String
  room : Option String
  start : ℚ
  stop : ℚ
deriving DecidableEq, Repr

/-- The per-patient allocation step of `run_csv_pipeline` (csv_pipeline.py
lines 382-405), starting at the `los <= 0` check: on failure the patient
record is returned untouched, otherwise its room/start/stop are set from
the `assign_room` result. -/
def allocStep (rooms : List Room) (p : Patient) (los : ℚ) : Patient × List Room :=
  if los ≤ 0 then (p, rooms)
  else
    match assign_room rooms los with
    | (none, rooms') => (p, rooms')
    | (some (rid, s, t), rooms') => ({ p with room := some rid, start := s, stop := t }, rooms')

/-! ### Specification lemmas for `findBest` -/

lemma findBest_go_spec : ∀ (l : List Room) (i0 j : Nat) (b : Room),
    ∃ i r, findBest l i0 (some (j, b, nextAvail b)) = some (i, r, nextAvail r) ∧
      nextAvail r ≤ nextAvail b ∧
      (∀ k, k < l.length → nextAvail r ≤ nextAvail (l.getD k defaultRoom)) ∧
      ((i = j ∧ r = b) ∨
        ∃ k, k < l.length ∧ i = i0 + k ∧ l.getD k defaultRoom = r ∧
          nextAvail r < nextAvail b ∧
          ∀ m, m < k → nextAvail r < nextAvail (l.getD m defaultRoom)) := by
  intro l
  induction l with
  | nil =>
    intro i0 j b
    exact ⟨j, b, rfl, le_refl _, by intro k hk; simp at hk, Or.inl ⟨rfl, rfl⟩⟩
  | cons r0 rest ih =>
    intro i0 j b
    by_cases hcmp : nextAvail r0 < nextAvail b
    · -- the running minimum is replaced by r0
      obtain ⟨i, r, heq, hle, hall, hdisj⟩ := ih (i0 + 1) i0 r0
      refine ⟨i, r, ?_, le_of_lt (lt_of_le_of_lt hle hcmp), ?_, ?_⟩
      · simpa [findBest, hcmp] using heq
      · intro k hk
        cases k with
        | zero => simpa using hle
        | succ k' =>
          have : k' < rest.length := by simpa using hk
          simpa using hall k' this
      · rcases hdisj with ⟨hi, hr⟩ | ⟨k', hk', hi, hget, hlt, hmin⟩
        · refine Or.inr ⟨0, by simp, by omega, by simpa using hr.symm, by
            rw [hi, hr] at *; exact hcmp, ?_⟩
          intro m hm; omega
        · refine Or.inr ⟨k' + 1, by simpa using hk', by omega, by simpa using hget,
            lt_trans hlt hcmp, ?_⟩
          intro m hm
          cases m with
          | zero => simpa using hlt
          | succ m' =>
            have : m' < k' := by omega
            simpa using hmin m' this
    · -- the running minimum survives r0
      obtain ⟨i, r, heq, hle, hall, hdisj⟩ := ih (i0 + 1) j b
      have hble : nextAvail b ≤ nextAvail r0 := le_of_not_lt hcmp
      refine ⟨i, r, ?_, hle, ?_, ?_⟩
      · simpa [findBest, hcmp] using heq
      · intro k hk
        cases k with
        | zero => simpa using le_trans hle hble
        | succ k' =>
          have : k' < rest.length := by simpa using hk
          simpa using hall k' this
      · rcases hdisj with hl | ⟨k', hk', hi, hget, hlt, hmin⟩
        · exact Or.inl hl
        · refine Or.inr ⟨k' + 1, by simpa using hk', by omega, by simpa using hget, hlt, ?_⟩
          intro m hm
          cases m with
          | zero => simpa using lt_of_lt_of_le hlt hble
          | succ m' =>
            have : m' < k' := by omega
            simpa using hmin m' this

/-- On a non-empty pool, `findBest` returns the first room attaining the
minimum next-available time. -/
lemma findBest_spec (rooms : List Room) (hne : rooms ≠ []) :
    ∃ i, i < rooms.length ∧
      findBest rooms 0 none =
        some (i, rooms.getD i defaultRoom, nextAvail (rooms.getD i defaultRoom)) ∧
      (∀ j, j < rooms.length →
        nextAvail (rooms.getD i defaultRoom) ≤ nextAvail (rooms.getD j defaultRoom)) ∧
      (∀ j, j < i →
        nextAvail (rooms.getD i defaultRoom) < nextAvail (rooms.getD j defaultRoom)) := by
  cases rooms with
  | nil => exact absurd rfl hne
  | cons r0 rest =>
    obtain ⟨i, r, heq, hle, hall, hdisj⟩ := findBest_go_spec rest 1 0 r0
    have hstep : findBest (r0 :: rest) 0 none = findBest rest 1 (some (0, r0, nextAvail r0)) := rfl
    rcases hdisj with ⟨hi, hr⟩ | ⟨k, hk, hi, hget, hlt, hmin⟩
    · subst hi; subst hr
      refine ⟨0, by simp, by rw [hstep]; simpa using heq, ?_, ?_⟩
      · intro j hj
        cases j with
        | zero => simp
        | succ j' =>
          have : j' < rest.length := by simpa using hj
          simpa using hall j' this
      · intro j hj; omega
    · refine ⟨i, by simp; omega, ?_, ?_, ?_⟩
      · rw [hstep]
        have hgd : (r0 :: rest).getD i defaultRoom = r := by
          subst hi
          have : 1 + k = k + 1 := by omega
          rw [this]
          simpa using hget
        rw [hgd]; exact heq
      · intro j hj
        have hgd : (r0 :: rest).getD i defaultRoom = r := by
          subst hi
          have : 1 + k = k + 1 := by omega
          rw [this]; simpa using hget
        rw [hgd]
        cases j with
        | zero => simpa using le_of_lt hlt
        | succ j' =>
          have : j' < rest.length := by simpa using hj
          simpa using hall j' this
      · intro j hj
        have hgd : (r0 :: rest).getD i defaultRoom = r := by
          subst hi
          have : 1 + k = k + 1 := by omega
          rw [this]; simpa using hget
        rw [hgd]
        cases j with
        | zero => simpa using hlt
        | succ j' =>
          have hj' : j' < k := by omega
          simpa using hmin j' hj'

/-- `findBest` returns `none` exactly on the empty pool. -/
lemma findBest_none_iff (rooms : List Room) :
    findBest rooms 0 none = none ↔ rooms = [] := by
  constructor
  · intro h
    by_contra hne
    obtain ⟨i, _, heq, _, _⟩ := findBest_spec rooms hne
    rw [heq] at h
    exact Option.noConfusion h
  · intro h; subst h; rfl

/-- The never-booked three-room pool `["A","B","C"]` of spec scenario 1. -/
def poolABC : List Room := [⟨"A", -1, -1⟩, ⟨"B", -1, -1⟩, ⟨"C", -1, -1⟩]

/-- C3: for every non-empty room pool and every duration > 0, `assign_room`
books the room with the minimum next-available time (0 for a never-booked
room, else its `stop`), breaking ties by pool iteration order (first room
attaining the minimum), and returns `(room_id, next_available,
next_available + duration)`; on the never-booked pool `["A","B","C"]`,
`allocate(5)` returns `("A", 0, 5)` and a subsequent `allocate(3)` returns
`("B", 0, 3)`. -/
theorem allocate_picks_min_next_available_first :
    (∀ (rooms : List Room) (d : ℚ), rooms ≠ [] → 0 < d →
      ∃ i, i < rooms.length ∧
        (assign_room rooms d).1 =
          some ((rooms.getD i defaultRoom).id, nextAvail (rooms.getD i defaultRoom),
            nextAvail (rooms.getD i defaultRoom) + d) ∧
        (∀ j, j < rooms.length →
          nextAvail (rooms.getD i defaultRoom) ≤ nextAvail (rooms.getD j defaultRoom)) ∧
        (∀ j, j < i →
          nextAvail (rooms.getD i defaultRoom) < nextAvail (rooms.getD j defaultRoom))) ∧
    (assign_room poolABC 5).1 = some ("A", 0, 5) ∧
    (assign_room (assign_room poolABC 5).2 3).1 = some ("B", 0, 3) := by
  refine ⟨?_, by norm_num [assign_room, findBest, nextAvail, poolABC],
    by norm_num [assign_room, findBest, nextAvail, poolABC]⟩
  intro rooms d hne hd
  obtain ⟨i, hi, heq, hmin, hfirst⟩ := findBest_spec rooms hne
  refine ⟨i, hi, ?_, hmin, hfirst⟩
  unfold assign_room
  rw [if_neg (not_le.mpr hd), heq]

/-- Witness for C3 at the concrete pool of the spec scenario. -/
theorem allocate_picks_min_next_available_first_witness :
    (poolABC ≠ [] ∧ (0 : ℚ) < 5) ∧
      (∃ i, i < poolABC.length ∧
        (assign_room poolABC 5).1 =
          some ((poolABC.getD i defaultRoom).id, nextAvail (poolABC.getD i defaultRoom),
            nextAvail (poolABC.getD i defaultRoom) + 5) ∧
        (∀ j, j < poolABC.length →
          nextAvail (poolABC.getD i defaultRoom) ≤ nextAvail (poolABC.getD j defaultRoom)) ∧
        (∀ j, j < i →
          nextAvail (poolABC.getD i defaultRoom) < nextAvail (poolABC.getD j defaultRoom))) :=
  ⟨⟨by decide, by decide⟩,
    allocate_picks_min_next_available_first.1 poolABC 5 (by decide) (by decide)⟩

/-- C6: `assign_room` returns `none` iff the duration is ≤ 0 or the pool is
empty; in exactly those cases the pool is unchanged and the patient record
keeps its unassigned `-1` sentinels; on a non-empty pool with positive
duration it succeeds (the iff forces the result to be `some`). -/
theorem allocate_none_iff_invalid :
    ∀ (rooms : List Room) (d : ℚ),
      ((assign_room rooms d).1 = none ↔ d ≤ 0 ∨ rooms = []) ∧
      ((d ≤ 0 ∨ rooms = []) →
        (assign_room rooms d).2 = rooms ∧
        ∀ pid, allocStep rooms ⟨pid, none, -1, -1⟩ d = (⟨pid, none, -1, -1⟩, rooms)) := by
  intro rooms d
  by_cases hd : d ≤ 0
  · constructor
    · simp [assign_room, hd]
    · intro _
      constructor
      · simp [assign_room, hd]
      · intro pid
        simp [allocStep, hd]
  · by_cases hne : rooms = []
    · subst hne
      constructor
      · simp [assign_room, hd, findBest]
      · intro _
        refine ⟨by simp [assign_room, hd, findBest], ?_⟩
        intro pid
        simp [allocStep, hd, assign_room, findBest]
    · obtain ⟨i, hi, heq, _, _⟩ := findBest_spec rooms hne
      constructor
      · constructor
        · intro hnone
          exfalso
          unfold assign_room at hnone
          rw [if_neg hd, heq] at hnone
          exact Option.noConfusion hnone
        · intro h
          rcases h with h | h
          · exact absurd h hd
          · exact absurd h hne
      · intro h
        rcases h with h | h
        · exact absurd h hd
        · exact absurd h hne

/-- Witness for C6 on the empty pool with a positive duration. -/
theorem allocate_none_iff_invalid_witness :
    ((assign_room [] 5).1 = none ↔ (5 : ℚ) ≤ 0 ∨ ([] : List Room) = []) ∧
      (((5 : ℚ) ≤ 0 ∨ ([] : List Room) = []) →
        (assign_room [] 5).2 = [] ∧
        ∀ pid, allocStep [] ⟨pid, none, -1, -1⟩ 5 = (⟨pid, none, -1, -1⟩, [])) :=
  allocate_none_iff_invalid [] 5

/-- C10: a successful `assign_room` call mutates exactly one room: the
chosen room (the one whose id is returned) has its `start`/`stop` set to
the returned window, and every other room in the pool is unchanged. -/
theorem allocate_mutates_exactly_one_room :
    ∀ (rooms : List Room) (d : ℚ) (rid : String) (s t : ℚ),
      (assign_room rooms d).1 = some (rid, s, t) →
      ∃ i, i < rooms.length ∧
        rid = (rooms.getD i defaultRoom).id ∧
        (assign_room rooms d).2 =
          rooms.set i { rooms.getD i defaultRoom with start := s, stop := t } ∧
        (∀ j, j ≠ i → (assign_room rooms d).2.getD j defaultRoom = rooms.getD j defaultRoom) ∧
        (assign_room rooms d).2.getD i defaultRoom =
          { rooms.getD i defaultRoom with start := s, stop := t } := by
  intro rooms d rid s t hsome
  have hd : ¬d ≤ 0 := by
    intro hd
    rw [show (assign_room rooms d).1 = none by simp [assign_room, hd]] at hsome
    exact Option.noConfusion hsome
  have hne : rooms ≠ [] := by
    intro h
    subst h
    rw [show (assign_room [] d).1 = none by simp [assign_room, hd, findBest]] at hsome
    exact Option.noConfusion hsome
  obtain ⟨i, hi, heq, _, _⟩ := findBest_spec rooms hne
  have h1 : (assign_room rooms d).1 =
      some ((rooms.getD i defaultRoom).id, nextAvail (rooms.getD i defaultRoom),
        nextAvail (rooms.getD i defaultRoom) + d) := by
    unfold assign_room
    rw [if_neg hd, heq]
  have h2 : (assign_room rooms d).2 =
      rooms.set i { rooms.getD i defaultRoom with
        start := nextAvail (rooms.getD i defaultRoom),
        stop := nextAvail (rooms.getD i defaultRoom) + d } := by
    unfold assign_room
    rw [if_neg hd, heq]
  obtain ⟨hrid, hs, ht⟩ :
      rid = (rooms.getD i defaultRoom).id ∧
        s = nextAvail (rooms.getD i defaultRoom) ∧
        t = nextAvail (rooms.getD i defaultRoom) + d := by
    simpa using hsome.symm.trans h1
  refine ⟨i, hi, hrid, ?_, ?_, ?_⟩
  · rw [h2, hs, ht]
  · intro j hj
    rw [h2]
    simp [List.getD_eq_getElem?_getD, List.getElem?_set_ne (Ne.symm hj)]
  · rw [h2, hs, ht]
    simp [List.getD_eq_getElem?_getD, List.getElem?_set_self hi]

/-- Witness for C10 on a concrete two-room pool. -/
theorem allocate_mutates_exactly_one_room_witness :
    ((assign_room [⟨"A", -1, -1⟩, ⟨"B", 0, 2⟩] 3).1 = some ("A", 0, 3)) ∧
      (∃ i, i < ([⟨"A", -1, -1⟩, ⟨"B", 0, 2⟩] : List Room).length ∧
        "A" = (([⟨"A", -1, -1⟩, ⟨"B", 0, 2⟩] : List Room).getD i defaultRoom).id ∧
        (assign_room [⟨"A", -1, -1⟩, ⟨"B", 0, 2⟩] 3).2 =
          ([⟨"A", -1, -1⟩, ⟨"B", 0, 2⟩] : List Room).set i
            { ([⟨"A", -1, -1⟩, ⟨"B", 0, 2⟩] : List Room).getD i defaultRoom with
                start := 0, stop := 3 } ∧
        (∀ j, j ≠ i →
          (assign_room [⟨"A", -1, -1⟩, ⟨"B", 0, 2⟩] 3).2.getD j defaultRoom =
            ([⟨"A", -1, -1⟩, ⟨"B", 0, 2⟩] : List Room).getD j defaultRoom) ∧
        (assign_room [⟨"A", -1, -1⟩, ⟨"B", 0, 2⟩] 3).2.getD i defaultRoom =
          { ([⟨"A", -1, -1⟩, ⟨"B", 0, 2⟩] : List Room).getD i defaultRoom with
              start := 0, stop := 3 }) :=
  ⟨by norm_num [assign_room, findBest, nextAvail],
    allocate_mutates_exactly_one_room [⟨"A", -1, -1⟩, ⟨"B", 0, 2⟩] 3 "A" 0 3
      (by norm_num [assign_room, findBest, nextAvail])⟩

/-! ### Heap model for snapshot continuation (C7)

`run_csv_pipeline` (csv_pipeline.py lines 307-313) deep-copies the
`initial_hospital_space` snapshot before the allocation loop mutates any
room.  To make the aliasing content of that claim statable, the room pool
is modelled here as a heap of cells addressed by index; a Python
list-of-dicts value is a list of addresses into the heap, and
`copy.deepcopy` allocates fresh cells. -/

/-- Dereference one cell. -/
def readRoom (heap : List Room) (a : Nat) : Room := heap.getD a defaultRoom

/-- `findBest` reading rooms through addresses (same loop as
csv_pipeline.py lines 121-128). -/
def findBestAddr (heap : List Room) : List Nat → Option (Nat × ℚ) → Option (Nat × ℚ)
  | [], best => best
  | a :: as, best =>
    match best with
    | none => findBestAddr heap as (some (a, nextAvail (readRoom heap a)))
    | some (ba, bn) =>
      if nextAvail (readRoom heap a) < bn then
        findBestAddr heap as (some (a, nextAvail (readRoom heap a)))
      else findBestAddr heap as (some (ba, bn))

/-- `assign_room` at the heap level: the in-place write goes to the chosen
cell of the heap. -/
def assignRoomAddr (heap : List Room) (addrs : List Nat) (d : ℚ) :
    Option (String × ℚ × ℚ) × List Room :=
  if d ≤ 0 then (none, heap)
  else
    match findBestAddr heap addrs none with
    | none => (none, heap)
    | some (a, na) =>
      (some ((readRoom heap a).id, na, na + d),
       heap.set a { readRoom heap a with start := na, stop := na + d })

/-- `copy.deepcopy(initial_hospital_space)` (csv_pipeline.py line 308):
fresh cells holding copies of the snapshot's rooms are appended to the
heap, and the run works on the fresh addresses. -/
def deepcopyRooms (heap : List Room) (addrs : List Nat) : List Room × List Nat :=
  (heap ++ addrs.map (readRoom heap), List.range' heap.length addrs.length)

/-- The allocation loop of `run_csv_pipeline` (lines 382-405) restricted to
its effect on the rooms: for each patient's length of stay, skip it when
`los <= 0`, otherwise book a room in place. -/
def runBatchAddr (heap : List Room) (addrs : List Nat) (losList : List ℚ) : List Room :=
  losList.foldl (fun h los => if los ≤ 0 then h else (assignRoomAddr h addrs los).2) heap

/-- A run continuing from a snapshot: deep-copy, then allocate on the
copy.  Returns the final heap and the working addresses. -/
def runFromSnapshot (heap : List Room) (addrs : List Nat) (losList : List ℚ) :
    List Room × List Nat :=
  let copied := deepcopyRooms heap addrs
  (runBatchAddr copied.1 copied.2 losList, copied.2)

lemma findBestAddr_mem (heap : List Room) :
    ∀ (addrs : List Nat) (acc : Option (Nat × ℚ)) (res : Nat × ℚ),
      findBestAddr heap addrs acc = some res →
      res.1 ∈ addrs ∨ ∃ bn, acc = some (res.1, bn) := by
  intro addrs
  induction addrs with
  | nil =>
    intro acc res h
    exact Or.inr ⟨res.2, by simpa [findBestAddr] using h⟩
  | cons a as ih =>
    intro acc res h
    cases acc with
    | none =>
      rcases ih _ res (by simpa [findBestAddr] using h) with hmem | ⟨bn, hacc⟩
      · exact Or.inl (List.mem_cons_of_mem _ hmem)
      · have : a = res.1 := by
          have := hacc
          simp only [Option.some.injEq, Prod.mk.injEq] at this
          exact this.1
        exact Or.inl (this ▸ List.mem_cons_self _ _)
    | some p =>
      obtain ⟨ba, bn⟩ := p
      by_cases hlt : nextAvail (readRoom heap a) < bn
      · rcases ih _ res (by simpa [findBestAddr, hlt] using h) with hmem | ⟨bn', hacc⟩
        · exact Or.inl (List.mem_cons_of_mem _ hmem)
        · have : a = res.1 := by
            simp only [Option.some.injEq, Prod.mk.injEq] at hacc
            exact hacc.1
          exact Or.inl (this ▸ List.mem_cons_self _ _)
      · rcases ih _ res (by simpa [findBestAddr, hlt] using h) with hmem | ⟨bn', hacc⟩
        · exact Or.inl (List.mem_cons_of_mem _ hmem)
        · have : ba = res.1 := by
            simp only [Option.some.injEq, Prod.mk.injEq] at hacc
            exact hacc.1
          exact Or.inr ⟨bn, by rw [this]⟩

/-- `assignRoomAddr` writes only to an address in its address list. -/
lemma assignRoomAddr_frame (heap : List Room) (addrs : List Nat) (d : ℚ) (j : Nat)
    (hj : ∀ x ∈ addrs, j ≠ x) :
    readRoom (assignRoomAddr heap addrs d).2 j = readRoom heap j := by
  unfold assignRoomAddr
  by_cases hd : d ≤ 0
  · rw [if_pos hd]
  · rw [if_neg hd]
    cases hfb : findBestAddr heap addrs none with
    | none => rfl
    | some res =>
      obtain ⟨a, na⟩ := res
      rcases findBestAddr_mem heap addrs none (a, na) hfb with hmem | ⟨bn, habs⟩
      · have hne : a ≠ j := fun h => (hj a hmem) h.symm
        simp only [readRoom, List.getD_eq_getElem?_getD, List.getElem?_set_ne hne]
      · exact Option.noConfusion habs

/-- The allocation loop writes only to addresses in its address list. -/
lemma runBatchAddr_frame (addrs : List Nat) (j : Nat) (hj : ∀ x ∈ addrs, j ≠ x) :
    ∀ (losList : List ℚ) (heap : List Room),
      readRoom (runBatchAddr heap addrs losList) j = readRoom heap j := by
  intro losList
  induction losList with
  | nil => intro heap; rfl
  | cons los rest ih =>
    intro heap
    show readRoom (runBatchAddr (if los ≤ 0 then heap else (assignRoomAddr heap addrs los).2)
      addrs rest) j = readRoom heap j
    by_cases hlos : los ≤ 0
    · rw [if_pos hlos, ih heap]
    · rw [if_neg hlos, ih _, assignRoomAddr_frame heap addrs los j hj]

/-- C7: a run started from a previously produced snapshot deep-copies the
snapshot's rooms before any mutation, so after the run every cell of the
original heap — in particular every room of the snapshot — still holds its
pre-run `id`, `start` and `stop`. -/
theorem snapshot_rooms_unchanged_after_run :
    ∀ (heap : List Room) (addrs : List Nat) (losList : List ℚ) (a : Nat),
      a < heap.length →
      readRoom (runFromSnapshot heap addrs losList).1 a = readRoom heap a := by
  intro heap addrs losList a ha
  have hwork : ∀ x ∈ (deepcopyRooms heap addrs).2, a ≠ x := by
    intro x hx
    simp only [deepcopyRooms, List.mem_range'] at hx
    obtain ⟨i, _, hx⟩ := hx
    omega
  show readRoom (runBatchAddr (deepcopyRooms heap addrs).1 (deepcopyRooms heap addrs).2
    losList) a = readRoom heap a
  rw [runBatchAddr_frame _ a hwork]
  simp only [deepcopyRooms, readRoom, List.getD_eq_getElem?_getD]
  rw [List.getElem?_append, if_pos ha]

/-- Witness for C7 on a one-room snapshot and a single five-hour booking. -/
theorem snapshot_rooms_unchanged_after_run_witness :
    0 < ([⟨"R1", -1, -1⟩] : List Room).length ∧
      readRoom (runFromSnapshot [⟨"R1", -1, -1⟩] [0] [5]).1 0 =
        readRoom [⟨"R1", -1, -1⟩] 0 :=
  ⟨by decide, snapshot_rooms_unchanged_after_run [⟨"R1", -1, -1⟩] [0] [5] 0 (by decide)⟩

/-! ### Rotation scheduler: `schedule_nurses_next_12h` (csv_pipeline.py
lines 138-220) -/

/-- One roster entry `{"name": str, "load": int}`. -/
structure StaffMember where
  name : String
  load : Int
deriving DecidableEq, Repr

/-- One produced assignment `{"id": nurse, "room": room, "start": float,
"stop": float}` (csv_pipeline.py lines 210-215). -/
structure NurseAssign where
  id : String
  room : String
  start : ℚ
  stop : ℚ
deriving DecidableEq, Repr

def NURSE_WINDOW_HOURS : ℚ := 12
def NURSES_PER_ROOM : Nat := 4
/-- Slot durations in hours: 15, 20, 30 minutes (csv_pipeline.py line 35). -/
def NURSE_SLOT_DURATIONS_HOURS : List ℚ := [15 / 60, 20 / 60, 30 / 60]

/-- Python `round(x, 2)` (csv_pipeline.py lines 213-214): round to two
decimal places.  Mathlib `round` rounds half up where Python rounds half
to even; the two differ only at exact `.005` ties, which none of the slot
grid values hit, and only monotonicity is used below. -/
def round2 (q : ℚ) : ℚ := ((round (q * 100) : ℤ) : ℚ) / 100

lemma round2_mono {a b : ℚ} (h : a ≤ b) : round2 a ≤ round2 b := by
  unfold round2
  have h100 : a * 100 ≤ b * 100 := by nlinarith
  have : round (a * 100) ≤ round (b * 100) := by
    rw [round_eq, round_eq]
    exact Int.floor_mono (by linarith)
  have : ((round (a * 100) : ℤ) : ℚ) ≤ ((round (b * 100) : ℤ) : ℚ) := by exact_mod_cast this
  linarith

/-- Sort key `(x.get("load", 0), x.get("name", ""))` (line 161). -/
def rosterLe (a b : StaffMember) : Prop :=
  a.load < b.load ∨ (a.load = b.load ∧ a.name ≤ b.name)

instance : DecidableRel rosterLe := fun a b => by
  unfold rosterLe; exact inferInstance

/-- `sorted(roster, key=lambda x: (x.get("load", 0), x.get("name", "")))`
(line 161).  Python's sort is stable; `List.insertionSort` with this
non-strict lexicographic key is stable in the same sense. -/
def sortRoster (roster : List StaffMember) : List StaffMember :=
  roster.insertionSort rosterLe

/-- Lines 162-166: names of the load-sorted roster, padded with
`Nurse_{i+1}` up to `nurses_per_room` names when the roster is shorter. -/
def nurseNames (roster : List StaffMember) (nursesPerRoom : Nat) : List String :=
  let names := (sortRoster roster).map (fun r => r.name)
  if names.length < nursesPerRoom then
    names ++ (List.range' names.length (nursesPerRoom - names.length)).map
      (fun i => "Nurse_" ++ toString (i + 1))
  else names

/-- `is_nurse_available` (lines 174-180): no overlap of `[s, t)` with any
committed interval of this nurse. -/
def isNurseAvailable (sched : String → List (ℚ × ℚ)) (nm : String) (s t : ℚ) : Bool :=
  (sched nm).all (fun p => !(decide (s < p.2) && decide (t > p.1)))

/-- `find_available_nurse` (lines 182-189): first available name scanning
round-robin from `startIdx`. -/
def findAvailableNurse (names : List String) (sched : String → List (ℚ × ℚ))
    (s t : ℚ) (startIdx : Nat) : Option String :=
  (List.range names.length).findSome? (fun i =>
    let nm := names.getD ((startIdx + i) % names.length) ""
    if isNurseAvailable sched nm s t then some nm else none)

/-- Loop state of `schedule_nurses_next_12h`: the per-nurse committed
intervals (`nurse_schedule`, a dict defaulting to `[]` for names the loop
never touches), the round-robin counter, and the output list. -/
structure SchedState where
  sched : String → List (ℚ × ℚ)
  counter : Nat
  result : List NurseAssign

/-- Commit half of the loop body (lines 200-218): look for an available
nurse for the window `[sS, sT)`; either commit the assignment (recording
the rounded window in the output) or leave the slot unfilled. -/
def slotCommit (names : List String) (st : SchedState) (sS sT : ℚ) (roomId : String) :
    SchedState :=
  match findAvailableNurse names st.sched sS sT st.counter with
  | none => st
  | some nm =>
    { sched := fun n => if n = nm then st.sched n ++ [(sS, sT)] else st.sched n,
      counter := st.counter + 1,
      result := st.result ++ [⟨nm, roomId, round2 sS, round2 sT⟩] }

/-- Body of the nested loops (lines 193-218) for one `(room_id, k)` slot:
`slot_start = k * step`, `duration = slot_durations[k % len]`,
`slot_stop = slot_start + duration`, then commit. -/
def slotStep (names : List String) (stepH : ℚ) (durs : List ℚ)
    (st : SchedState) (slot : String × Nat) : SchedState :=
  slotCommit names st ((slot.2 : ℚ) * stepH)
    ((slot.2 : ℚ) * stepH + durs.getD (slot.2 % durs.length) 0) slot.1

/-- `schedule_nurses_next_12h(rooms, roster, ...)` (lines 138-220). -/
def schedule_nurses_next_12h (rooms : List Room) (roster : List StaffMember)
    (windowHours : ℚ := NURSE_WINDOW_HOURS) (nursesPerRoom : Nat := NURSES_PER_ROOM)
    (slotDurations : List ℚ := NURSE_SLOT_DURATIONS_HOURS) : List NurseAssign :=
  let occupied := rooms.filter (fun r => 0 < r.stop)
  if occupied = [] ∨ roster = [] then []
  else
    let stepH := windowHours / (nursesPerRoom : ℚ)
    let names := nurseNames roster nursesPerRoom
    let slots := occupied.flatMap (fun r => (List.range nursesPerRoom).map (fun k => (r.id, k)))
    (slots.foldl (slotStep names stepH slotDurations) ⟨fun _ => [], 0, []⟩).result

/-- Two half-open intervals do not overlap (`a < d && c < b` is false). -/
def NoOverlapPair (p q : ℚ × ℚ) : Prop := ¬(p.1 < q.2 ∧ q.1 < p.2)

/-- Invariant of the scheduling loop: every nurse's committed intervals
are pairwise non-overlapping; every emitted assignment is the rounding of
a committed interval of its nurse; and no two emitted assignments of the
same nurse overlap. -/
def SchedInv (st : SchedState) : Prop :=
  (∀ n, (st.sched n).Pairwise NoOverlapPair) ∧
  (∀ e ∈ st.result, ∃ p ∈ st.sched e.id, e.start = round2 p.1 ∧ e.stop = round2 p.2) ∧
  st.result.Pairwise (fun e1 e2 => e1.id = e2.id → ¬(e1.start < e2.stop ∧ e2.start < e1.stop))

lemma round2_noOverlap {p : ℚ × ℚ} {s t : ℚ} (h : ¬(s < p.2 ∧ p.1 < t)) :
    ¬(round2 p.1 < round2 t ∧ round2 s < round2 p.2) := by
  rcases not_and_or.mp h with h' | h'
  · have : p.2 ≤ s := not_lt.mp h'
    intro hc
    exact absurd hc.2 (not_lt.mpr (round2_mono this))
  · have : t ≤ p.1 := not_lt.mp h'
    intro hc
    exact absurd hc.1 (not_lt.mpr (round2_mono this))

lemma findAvailableNurse_spec {names : List String} {sched : String → List (ℚ × ℚ)}
    {s t : ℚ} {idx : Nat} {nm : String}
    (h : findAvailableNurse names sched s t idx = some nm) :
    ∀ p ∈ sched nm, ¬(s < p.2 ∧ p.1 < t) := by
  obtain ⟨i, _, hf⟩ := List.exists_of_findSome?_eq_some h
  by_cases hav : isNurseAvailable sched (names.getD ((idx + i) % names.length) "") s t
  · rw [if_pos hav] at hf
    obtain rfl : names.getD ((idx + i) % names.length) "" = nm := by
      simpa using hf
    intro p hp
    have := (List.all_eq_true.mp hav) p hp
    simp only [Bool.not_eq_true', Bool.and_eq_false_iff, decide_eq_false_iff_not] at this
    intro hc
    rcases this with h' | h'
    · exact h' hc.1
    · exact h' hc.2
  · rw [if_neg hav] at hf
    exact Option.noConfusion hf

lemma slotCommit_inv {names : List String} {st : SchedState}
    (sS sT : ℚ) (roomId : String) (hinv : SchedInv st) :
    SchedInv (slotCommit names st sS sT roomId) := by
  obtain ⟨hsched, hmap, hpair⟩ := hinv
  unfold slotCommit
  cases hf : findAvailableNurse names st.sched sS sT st.counter with
  | none => exact ⟨hsched, hmap, hpair⟩
  | some nm =>
    have havail := findAvailableNurse_spec hf
    dsimp only
    refine ⟨?_, ?_, ?_⟩
    · intro n
      dsimp only
      by_cases hn : n = nm
      · subst hn
        rw [if_pos rfl, List.pairwise_append]
        refine ⟨hsched _, List.pairwise_singleton _ _, ?_⟩
        intro p hp q hq
        simp only [List.mem_singleton] at hq
        subst hq
        intro hc
        exact havail p hp ⟨hc.2, hc.1⟩
      · simpa [hn] using hsched n
    · intro e he
      dsimp only at he ⊢
      simp only [List.mem_append, List.mem_singleton] at he
      rcases he with he | he
      · obtain ⟨p, hp, hps, hpt⟩ := hmap e he
        by_cases hid : e.id = nm
        · refine ⟨p, ?_, hps, hpt⟩
          have hmem : p ∈ st.sched nm := hid ▸ hp
          simp [hid, hmem]
        · exact ⟨p, by simp [hid, hp], hps, hpt⟩
      · subst he
        exact ⟨(sS, sT), by simp, rfl, rfl⟩
    · dsimp only
      rw [List.pairwise_append]
      refine ⟨hpair, List.pairwise_singleton _ _, ?_⟩
      intro e he f hf'
      simp only [List.mem_singleton] at hf'
      subst hf'
      intro hid
      obtain ⟨p, hp, hps, hpt⟩ := hmap e he
      rw [hid] at hp
      have := round2_noOverlap (havail p hp)
      rw [hps, hpt]
      exact this

lemma slotStep_inv {names : List String} {stepH : ℚ} {durs : List ℚ}
    {st : SchedState} (slot : String × Nat) (hinv : SchedInv st) :
    SchedInv (slotStep names stepH durs st slot) :=
  slotCommit_inv _ _ _ hinv

lemma foldl_slotStep_inv (names : List String) (stepH : ℚ) (durs : List ℚ) :
    ∀ (slots : List (String × Nat)) (st : SchedState), SchedInv st →
      SchedInv (slots.foldl (slotStep names stepH durs) st) := by
  intro slots
  induction slots with
  | nil => intro st h; exact h
  | cons sl rest ih =>
    intro st h
    exact ih _ (slotStep_inv sl h)

/-- C1: for every list of rooms and every staff roster, the rotation
schedule produced by `schedule_nurses_next_12h` assigns no staff member
two rounds whose half-open time intervals overlap (`a < d && c < b`); and
a slot for which no non-overlapping staff member exists is left unfilled
(the loop state, and hence the output, is unchanged) rather than
double-booked. -/
theorem schedule_nurses_no_double_booking :
    (∀ (rooms : List Room) (roster : List StaffMember),
      (schedule_nurses_next_12h rooms roster).Pairwise
        (fun e1 e2 => e1.id = e2.id → ¬(e1.start < e2.stop ∧ e2.start < e1.stop))) ∧
    (∀ (names : List String) (st : SchedState) (sS sT : ℚ) (roomId : String),
      findAvailableNurse names st.sched sS sT st.counter = none →
      slotCommit names st sS sT roomId = st) := by
  constructor
  · intro rooms roster
    simp only [schedule_nurses_next_12h]
    by_cases hempty : rooms.filter (fun r => 0 < r.stop) = [] ∨ roster = []
    · rw [if_pos hempty]
      exact List.Pairwise.nil
    · rw [if_neg hempty]
      have hinit : SchedInv ⟨fun _ => [], 0, []⟩ :=
        ⟨fun _ => List.Pairwise.nil, fun e he => absurd he (List.not_mem_nil e),
          List.Pairwise.nil⟩
      exact (foldl_slotStep_inv _ _ _ _ _ hinit).2.2
  · intro names st sS sT roomId h
    unfold slotCommit
    rw [h]

/-- Witness for C1's unfilled-slot clause: with an empty name pool no
nurse is available and the slot commit leaves the state unchanged. -/
theorem schedule_nurses_no_double_booking_witness :
    findAvailableNurse [] (fun _ => []) 0 1 0 = none ∧
      slotCommit [] ⟨fun _ => [], 0, []⟩ 0 1 "R" = ⟨fun _ => [], 0, []⟩ :=
  ⟨rfl, schedule_nurses_no_double_booking.2 [] ⟨fun _ => [], 0, []⟩ 0 1 "R" rfl⟩

/-! ### Duration-label parsing: `_parse_duration_to_hours`
(greedy_allocation_tool.py lines 103-123)

The Python code runs four `re.search` calls in order on
`duration_of_stay.strip().lower()`:
  1. `(\d+(?:\.\d+)?)\s*-\s*(\d+(?:\.\d+)?)\s*day`  → midpoint × 24
  2. `(\d+(?:\.\d+)?)\s*day`                         → value × 24
  3. `(\d+(?:\.\d+)?)\s*-\s*(\d+(?:\.\d+)?)\s*hour` → midpoint
  4. `(\d+(?:\.\d+)?)\s*hour`                        → value
with a 72-hour default.  `re.search` is leftmost match; for these patterns
a greedy parse without backtracking is equivalent, because no digit can
ever be given back usefully: the characters following each `\d+` group
(`.`, whitespace, `-`, or a letter of the unit literal) are never digits.
Decimal number literals are modelled exactly as rationals. -/

/-- Python `str.strip()` on a character list. -/
def pyStrip (cs : List Char) : List Char :=
  ((cs.dropWhile Char.isWhitespace).reverse.dropWhile Char.isWhitespace).reverse

/-- Python `str.lower()` on a character list (ASCII inputs). -/
def pyLower (cs : List Char) : List Char := cs.map Char.toLower

/-- Numeric value of a digit run (`float` of the matched group, integer
part). -/
def digitsVal (ds : List Char) : Nat :=
  ds.foldl (fun acc c => acc * 10 + (c.toNat - '0'.toNat)) 0

/-- Greedy match of `\d+(?:\.\d+)?` at the head of the input; returns the
numeric value and the unconsumed rest. -/
def parseNumber (cs : List Char) : Option (ℚ × List Char) :=
  let ds := cs.takeWhile Char.isDigit
  let rest := cs.dropWhile Char.isDigit
  if ds = [] then none
  else
    match rest with
    | '.' :: rest2 =>
      let fs := rest2.takeWhile Char.isDigit
      let rest3 := rest2.dropWhile Char.isDigit
      if fs = [] then some ((digitsVal ds : ℚ), rest)
      else some ((digitsVal ds : ℚ) + (digitsVal fs : ℚ) / (10 : ℚ) ^ fs.length, rest3)
    | _ => some ((digitsVal ds : ℚ), rest)

/-- Greedy `\s*`. -/
def skipSpaces (cs : List Char) : List Char := cs.dropWhile Char.isWhitespace

/-- Literal match (e.g. `day`, `hour`); the regex needs no `s` after the
unit, so trailing characters are left unconsumed. -/
def matchLit : List Char → List Char → Option (List Char)
  | [], cs => some cs
  | _ :: _, [] => none
  | l :: ls, c :: cs => if c = l then matchLit ls cs else none

/-- `(\d+(?:\.\d+)?)\s*-\s*(\d+(?:\.\d+)?)\s*<unit>` anchored at the head. -/
def matchNumPair (unit : List Char) (cs : List Char) : Option (ℚ × ℚ) :=
  match parseNumber cs with
  | none => none
  | some (lo, r1) =>
    match skipSpaces r1 with
    | '-' :: r2 =>
      match parseNumber (skipSpaces r2) with
      | none => none
      | some (hi, r3) =>
        match matchLit unit (skipSpaces r3) with
        | none => none
        | some _ => some (lo, hi)
    | _ => none

/-- `(\d+(?:\.\d+)?)\s*<unit>` anchored at the head. -/
def matchNumSingle (unit : List Char) (cs : List Char) : Option ℚ :=
  match parseNumber cs with
  | none => none
  | some (n, r1) =>
    match matchLit unit (skipSpaces r1) with
    | none => none
    | some _ => some n

/-- `re.search`: try the anchored matcher at every position, leftmost
first. -/
def searchFrom {β : Type} (m : List Char → Option β) : List Char → Option β
  | [] => m []
  | c :: cs =>
    match m (c :: cs) with
    | some b => some b
    | none => searchFrom m cs

/-- `_parse_duration_to_hours(duration_of_stay)` (greedy_allocation_tool.py
lines 103-123).  `none` models a `None` (or non-string, which the code
treats identically) payload. -/
def _parse_duration_to_hours (duration_of_stay : Option String) : ℚ :=
  match duration_of_stay with
  | none => 72
  | some str =>
    if str = "" then 72
    else
      match searchFrom (matchNumPair ['d', 'a', 'y']) (pyLower (pyStrip str.toList)) with
      | some (lo, hi) => (lo + hi) / 2 * 24
      | none =>
        match searchFrom (matchNumSingle ['d', 'a', 'y']) (pyLower (pyStrip str.toList)) with
        | some n => n * 24
        | none =>
          match searchFrom (matchNumPair ['h', 'o', 'u', 'r']) (pyLower (pyStrip str.toList)) with
          | some (lo, hi) => (lo + hi) / 2
          | none =>
            match searchFrom (matchNumSingle ['h', 'o', 'u', 'r']) (pyLower (pyStrip str.toList)) with
            | some n => n
            | none => 72

/-- A normalized label on which none of the four patterns matches
anywhere. -/
def Unparseable (str : String) : Prop :=
  searchFrom (matchNumPair ['d', 'a', 'y']) (pyLower (pyStrip str.toList)) = none ∧
  searchFrom (matchNumSingle ['d', 'a', 'y']) (pyLower (pyStrip str.toList)) = none ∧
  searchFrom (matchNumPair ['h', 'o', 'u', 'r']) (pyLower (pyStrip str.toList)) = none ∧
  searchFrom (matchNumSingle ['h', 'o', 'u', 'r']) (pyLower (pyStrip str.toList)) = none

/-- C8: the duration-label parser maps `"5-7 days"` to 144 hours,
`"24-48 hours"` to 36 hours, `"3 days"` to 72 hours (ranges resolve to
their midpoint), and maps every unparseable or missing label to the
default of 72 hours. -/
theorem parse_duration_values :
    _parse_duration_to_hours (some "5-7 days") = 144 ∧
    _parse_duration_to_hours (some "24-48 hours") = 36 ∧
    _parse_duration_to_hours (some "3 days") = 72 ∧
    _parse_duration_to_hours none = 72 ∧
    (∀ str : String, Unparseable str → _parse_duration_to_hours (some str) = 72) := by
  refine ⟨?_, ?_, ?_, rfl, ?_⟩
  · have h : searchFrom (matchNumPair ['d', 'a', 'y'])
        (pyLower (pyStrip "5-7 days".toList)) = some (5, 7) := by decide
    show (match searchFrom (matchNumPair ['d', 'a', 'y'])
        (pyLower (pyStrip "5-7 days".toList)) with
      | some (lo, hi) => (lo + hi) / 2 * 24
      | none =>
        match searchFrom (matchNumSingle ['d', 'a', 'y'])
            (pyLower (pyStrip "5-7 days".toList)) with
        | some n => n * 24
        | none =>
          match searchFrom (matchNumPair ['h', 'o', 'u', 'r'])
              (pyLower (pyStrip "5-7 days".toList)) with
          | some (lo, hi) => (lo + hi) / 2
          | none =>
            match searchFrom (matchNumSingle ['h', 'o', 'u', 'r'])
                (pyLower (pyStrip "5-7 days".toList)) with
            | some n => n
            | none => 72) = (144 : ℚ)
    rw [h]
    norm_num
  · have h1 : searchFrom (matchNumPair ['d', 'a', 'y'])
        (pyLower (pyStrip "24-48 hours".toList)) = none := by decide
    have h2 : searchFrom (matchNumSingle ['d', 'a', 'y'])
        (pyLower (pyStrip "24-48 hours".toList)) = none := by decide
    have h3 : searchFrom (matchNumPair ['h', 'o', 'u', 'r'])
        (pyLower (pyStrip "24-48 hours".toList)) = some (24, 48) := by decide
    show (match searchFrom (matchNumPair ['d', 'a', 'y'])
        (pyLower (pyStrip "24-48 hours".toList)) with
      | some (lo, hi) => (lo + hi) / 2 * 24
      | none =>
        match searchFrom (matchNumSingle ['d', 'a', 'y'])
            (pyLower (pyStrip "24-48 hours".toList)) with
        | some n => n * 24
        | none =>
          match searchFrom (matchNumPair ['h', 'o', 'u', 'r'])
              (pyLower (pyStrip "24-48 hours".toList)) with
          | some (lo, hi) => (lo + hi) / 2
          | none =>
            match searchFrom (matchNumSingle ['h', 'o', 'u', 'r'])
                (pyLower (pyStrip "24-48 hours".toList)) with
            | some n => n
            | none => 72) = (36 : ℚ)
    rw [h1, h2, h3]
    norm_num
  · have h1 : searchFrom (matchNumPair ['d', 'a', 'y'])
        (pyLower (pyStrip "3 days".toList)) = none := by decide
    have h2 : searchFrom (matchNumSingle ['d', 'a', 'y'])
        (pyLower (pyStrip "3 days".toList)) = some 3 := by decide
    show (match searchFrom (matchNumPair ['d', 'a', 'y'])
        (pyLower (pyStrip "3 days".toList)) with
      | some (lo, hi) => (lo + hi) / 2 * 24
      | none =>
        match searchFrom (matchNumSingle ['d', 'a', 'y'])
            (pyLower (pyStrip "3 days".toList)) with
        | some n => n * 24
        | none =>
          match searchFrom (matchNumPair ['h', 'o', 'u', 'r'])
              (pyLower (pyStrip "3 days".toList)) with
          | some (lo, hi) => (lo + hi) / 2
          | none =>
            match searchFrom (matchNumSingle ['h', 'o', 'u', 'r'])
                (pyLower (pyStrip "3 days".toList)) with
            | some n => n
            | none => 72) = (72 : ℚ)
    rw [h1, h2]
    norm_num
  · intro str hstr
    obtain ⟨h1, h2, h3, h4⟩ := hstr
    show (if str = "" then (72 : ℚ)
      else
        match searchFrom (matchNumPair ['d', 'a', 'y']) (pyLower (pyStrip str.toList)) with
        | some (lo, hi) => (lo + hi) / 2 * 24
        | none =>
          match searchFrom (matchNumSingle ['d', 'a', 'y']) (pyLower (pyStrip str.toList)) with
          | some n => n * 24
          | none =>
            match searchFrom (matchNumPair ['h', 'o', 'u', 'r'])
                (pyLower (pyStrip str.toList)) with
            | some (lo, hi) => (lo + hi) / 2
            | none =>
              match searchFrom (matchNumSingle ['h', 'o', 'u', 'r'])
                  (pyLower (pyStrip str.toList)) with
              | some n => n
              | none => 72) = 72
    by_cases hemp : str = ""
    · rw [if_pos hemp]
    · rw [if_neg hemp, h1, h2, h3, h4]

/-- Witness for C8's unparseable clause at the concrete label "soon". -/
theorem parse_duration_values_witness :
    Unparseable "soon" ∧ _parse_duration_to_hours (some "soon") = 72 :=
  have hu : Unparseable "soon" := ⟨by decide, by decide, by decide, by decide⟩
  ⟨hu, parse_duration_values.2.2.2.2 "soon" hu⟩

/-! ### Greedy allocation tool (greedy_allocation_tool.py)

Data model for the JSON payloads the tool reads.  Python truthiness
(`x or y` falls through on `None`, `""`, `0`, `[]`) is modelled by the
`...Truthy` helpers; `none` models both a missing key and a JSON `null`. -/

/-- `a or b` for string-valued lookups: `none` and `""` are falsy. -/
def strTruthy : Option String → Option String
  | some s => if s = "" then none else some s
  | none => none

/-- `a.get(k1) or a.get(k2)` for strings. -/
def orStrOpt (a b : Option String) : Option String :=
  match strTruthy a with
  | some s => some s
  | none => strTruthy b

/-- `(a.get(k1) or a.get(k2) or dflt)` for strings. -/
def orStr (a b : Option String) (dflt : String) : String := (orStrOpt a b).getD dflt

/-- `a or b` for int-valued lookups: `none` and `0` are falsy. -/
def intTruthy : Option Int → Option Int
  | some n => if n = 0 then none else some n
  | none => none

/-- `a or b` for list-valued lookups: `none` and `[]` are falsy. -/
def listTruthy : Option (List String) → Option (List String)
  | some l => if l = [] then none else some l
  | none => none

/-- One feasibility option `{nurse_name, room_id, room_type, nurse_load,
certifications}`, with the alternate key spellings the code probes
(`nurse`, `room`, `current_load`, `certs`).  Certification values are
lists of strings (the code wraps a scalar into a one-element list and
drops non-strings; those payloads are not modelled). -/
structure AllocOption where
  nurse_name : Option String := none
  nurse : Option String := none
  room_id : Option String := none
  room : Option String := none
  room_type : Option String := none
  nurse_load : Option Int := none
  current_load : Option Int := none
  certifications : Option (List String) := none
  certs : Option (List String) := none
deriving DecidableEq, Repr

instance : Inhabited AllocOption := ⟨{}⟩

/-- The nested `risk_profile` object. -/
structure RiskProfileInner where
  numeric_score : Option ℚ := none
  risk_category : Option String := none
  predicted_duration_of_stay : Option String := none
deriving DecidableEq, Repr

/-- A risk-profile payload: possibly a nested `risk_profile` object plus
top-level fallback keys.  `risk_profile = none` models a missing (or
falsy) nested object, in which case `rp = profile.get("risk_profile") or
profile` makes the code re-read the top-level keys. -/
structure Profile where
  risk_profile : Option RiskProfileInner := none
  numeric_score : Option ℚ := none
  risk_category : Option String := none
  predicted_duration_of_stay : Option String := none
deriving DecidableEq, Repr

/-- `GreedyAllocationTool._get_risk_category` (lines 292-299): nested
truthy `risk_category` first, else top-level, else `"Observation"`. -/
def _get_risk_category (p : Profile) : String :=
  match p.risk_profile with
  | some rp =>
    match strTruthy rp.risk_category with
    | some c => c
    | none => (strTruthy p.risk_category).getD "Observation"
  | none => (strTruthy p.risk_category).getD "Observation"

/-- `GreedyAllocationTool._get_risk_score` (lines 301-308): nested
`numeric_score` when present (an `is not None` check, so `0` counts),
else `profile.get("numeric_score", 0.5)`. -/
def _get_risk_score (p : Profile) : ℚ :=
  match p.risk_profile with
  | some rp =>
    match rp.numeric_score with
    | some s => s
    | none => p.numeric_score.getD (1 / 2)
  | none => p.numeric_score.getD (1 / 2)

/-- `GreedyAllocationTool._get_duration_of_stay` (lines 310-320): truthy
top-level key first, then the nested object, else `None`. -/
def _get_duration_of_stay (p : Profile) : Option String :=
  match strTruthy p.predicted_duration_of_stay with
  | some d => some d
  | none =>
    match p.risk_profile with
    | some rp => strTruthy rp.predicted_duration_of_stay
    | none => strTruthy p.predicted_duration_of_stay

/-- `_waitlist_position_from_score` (lines 322-329). -/
def _waitlist_position_from_score (risk_score : ℚ) : Int :=
  if risk_score ≥ 8 / 10 then 1
  else if risk_score ≥ 5 / 10 then 2
  else 3

/-- `ROOM_FIT` (lines 36-42). -/
def ROOM_FIT : String → Option (List String)
  | "Critical" => some ["Negative Pressure", "Isolation", "General"]
  | "High" => some ["Isolation", "Negative Pressure", "General"]
  | "Observation" => some ["Isolation", "General", "Negative Pressure"]
  | "Stable" => some ["General", "Isolation", "Negative Pressure"]
  | "Low" => some ["General"]
  | _ => none

def DEFAULT_ORDER : List String := ["Negative Pressure", "Isolation", "General"]

/-- `RISK_CATEGORY_REQUIRED_CERTS` (lines 46-52). -/
def RISK_CATEGORY_REQUIRED_CERTS : String → Option (List String)
  | "Critical" => some ["ICU-certified", "ACLS"]
  | "High" => some ["ICU-certified"]
  | "Observation" => some ["ICU-certified", "ER-specialist"]
  | "Stable" => some ["ER-specialist", "General"]
  | "Low" => some ["General"]
  | _ => none

def DEFAULT_REQUIRED_CERTS : List String := ["General"]

/-- `_cert_match_score` (lines 56-62). -/
def _cert_match_score (required_certs nurse_certs : List String) : ℚ :=
  if required_certs = [] then 0
  else
    ((required_certs.filter
        (fun c => (nurse_certs.map String.trim).contains c.trim)).length : ℚ) /
      (max required_certs.length 1 : ℚ)

/-- `_room_match_score` (lines 65-72): position in the preference order,
`0.0` when the type is absent (the `ValueError` branch). -/
def _room_match_score (risk_category room_type : String) : ℚ :=
  let order := (ROOM_FIT risk_category).getD DEFAULT_ORDER
  match order.indexOf? room_type with
  | some idx => 1 - (idx : ℚ) / (max order.length 1 : ℚ)
  | none => 0

/-- `_load_score` (lines 75-79). -/
def _load_score (nurse_load : Int) (max_load : Int := 6) : ℚ :=
  if max_load ≤ 0 then 1
  else max 0 (1 - (nurse_load : ℚ) / (max_load : ℚ))

/-- `NurseCheckSchedule` (output_schemas.py lines 51-65). -/
structure NurseCheckSchedule where
  interval_hours : Int := 4
  duration_minutes : String := "20-30"
  nurse_names : List String := []
deriving DecidableEq, Repr

/-- `NurseCheckRound` (output_schemas.py lines 182-187). -/
structure NurseCheckRound where
  nurse : String
  start : ℚ
  stop : ℚ
deriving DecidableEq, Repr

/-- `status` is `Literal["assigned", "waitlisted"]`. -/
inductive AllocStatus
  | assigned
  | waitlisted
deriving DecidableEq, Repr

/-- `FinalAllocationOutput` (output_schemas.py lines 68-112). -/
structure FinalAllocationOutput where
  patient_id : String
  status : AllocStatus
  risk_score : ℚ
  risk_category : String := ""
  room_id : Option String := none
  nurse_name : Option String := none
  nurse_check_schedule : Option NurseCheckSchedule := none
  waitlist_position : Option Int := none
  duration_of_stay : Option String := none
  nurse_rounds : Option (List NurseCheckRound) := none
deriving DecidableEq, Repr

/-- The accumulation loop of `_build_nurse_check_schedule` (lines 89-95):
walk the options, appending each new truthy nurse name, stopping once four
names are collected.  `acc` plays the role of `nurses`/`seen` (the list
never holds duplicates). -/
def addCheckNurses : List AllocOption → List String → List String
  | [], acc => acc
  | o :: os, acc =>
    match orStrOpt o.nurse_name o.nurse with
    | some n =>
      if n ∈ acc then addCheckNurses os acc
      else if (acc ++ [n]).length ≥ 4 then acc ++ [n]
      else addCheckNurses os (acc ++ [n])
    | none => addCheckNurses os acc

/-- `_build_nurse_check_schedule(primary_nurse, options)` (lines 82-100). -/
def _build_nurse_check_schedule (primary_nurse : String) (options : List AllocOption) :
    NurseCheckSchedule :=
  let base := if primary_nurse = "" then [] else [primary_nurse]
  let nurses := addCheckNurses options base
  { interval_hours := 4, duration_minutes := "20-30",
    nurse_names :=
      if nurses ≠ [] then nurses
      else if primary_nurse = "" then [] else [primary_nurse] }

/-- Python `int()` on a non-negative float: truncation toward zero. -/
def truncQ (q : ℚ) : Int := if q < 0 then -(⌊-q⌋) else ⌊q⌋

/-- `_build_single_patient_nurse_rounds` (lines 168-183). -/
def _build_single_patient_nurse_rounds (duration_of_stay : Option String)
    (nurse_names : List String) : List NurseCheckRound :=
  if nurse_names = [] then []
  else
    let hours := _parse_duration_to_hours duration_of_stay
    let numRounds := max 1 (truncQ (hours / 4)).toNat
    (List.range numRounds).map (fun i =>
      ⟨nurse_names.getD (i % nurse_names.length) "", (i : ℚ) * 4, (i : ℚ) * 4 + 1 / 2⟩)

/-- Nurse pool of one allocation inside
`_build_conflict_free_nurse_rounds` (lines 140-142, 150-152). -/
def nursesOf (a : FinalAllocationOutput) : List String :=
  let nurses :=
    match a.nurse_check_schedule with
    | some ncs => ncs.nurse_names
    | none => []
  if nurses = [] then [orStr a.nurse_name none "Unknown"] else nurses

/-- Nurse selection for one allocation in one round (lines 153-162):
rotate from `round_idx % len`, take the first name not used in this round;
if every name is taken fall back to `nurses[0]` (this fallback is what can
double-book a nurse). -/
def pickNurseInRound (nurses : List String) (used : List String) (roundIdx : Nat) : String :=
  match (List.range nurses.length).findSome? (fun k =>
      let n := nurses.getD ((roundIdx % nurses.length + k) % nurses.length) ""
      if n ∈ used then none else some n) with
  | some n => n
  | none => nurses.getD 0 ""

/-- One round of `_build_conflict_free_nurse_rounds` (lines 145-164):
walk the assigned allocations and their per-patient round lists in
lockstep, threading the `used_this_round` set. -/
def roundStepGo (roundIdx : Nat) :
    List FinalAllocationOutput → List (List NurseCheckRound) → List String →
      List (List NurseCheckRound)
  | [], rest, _ => rest
  | _ :: _, [], _ => []
  | a :: as, r :: rs, used =>
    let nurse := pickNurseInRound (nursesOf a) used roundIdx
    (r ++ [⟨nurse, (roundIdx : ℚ) * 4, (roundIdx : ℚ) * 4 + 1 / 2⟩]) ::
      roundStepGo roundIdx as rs (used ++ [nurse])

/-- `_build_conflict_free_nurse_rounds(allocations)` (lines 126-165). -/
def _build_conflict_free_nurse_rounds (allocations : List FinalAllocationOutput) :
    List (List NurseCheckRound) :=
  let assigned := allocations.filter
    (fun a => decide (a.status = AllocStatus.assigned) && a.nurse_check_schedule.isSome)
  if assigned = [] then []
  else
    let maxRounds := assigned.foldl
      (fun m a =>
        max m (max 1 (truncQ (_parse_duration_to_hours a.duration_of_stay / 4)).toNat)) 0
    (List.range maxRounds).foldl
      (fun res roundIdx => roundStepGo roundIdx assigned res [])
      (assigned.map (fun _ => []))

/-! ### Batch allocation: `GreedyAllocationBatchTool._run` (lines 355-477) -/

/-- The `risk_profile` field of one element of the decoded `patients_json`
array: a JSON object in place (`pdict`), a JSON string (`pstr`, carrying
`some` parsed object or `none` when `json.loads` fails), or a missing /
other-typed value (`pmissing`).  A string parsing to non-object JSON makes
the Python code crash later and is not modelled. -/
inductive ProfilePayload
  | pdict (p : Profile)
  | pstr (p : Option Profile)
  | pmissing
deriving DecidableEq, Repr

/-- The `feasibility_options` field: a JSON array of objects (`olist`,
non-objects dropped as in the code), a JSON string (`ostr`, where an
unparseable or oddly shaped string already yields `[]` via
`_parse_options` + the `except ValueError` arm), or missing/other. -/
inductive OptionsPayload
  | olist (l : List AllocOption)
  | ostr (l : List AllocOption)
  | omissing
deriving DecidableEq, Repr

def OptionsPayload.get : OptionsPayload → List AllocOption
  | olist l => l
  | ostr l => l
  | omissing => []

/-- One decoded element of the `patients_json` array. -/
structure PatientItem where
  patient_id : Option String := none
  idKey : Option String := none
  risk_profile : ProfilePayload := ProfilePayload.pmissing
  feasibility_options : OptionsPayload := OptionsPayload.omissing
deriving DecidableEq, Repr

/-- An element of the decoded array: a JSON object or some other value
(skipped by the `isinstance(p, dict)` guard). -/
inductive BatchItem
  | obj (p : PatientItem)
  | nondict
deriving DecidableEq, Repr

/-- A resolved request `(patient_id, profile, options)`. -/
abbrev Resolved := String × Profile × List AllocOption

/-- The resolution loop (lines 377-402): walk the decoded array with its
enumeration index, skipping non-objects and requests whose `risk_profile`
is neither an object nor a string parsing to one.  Note that a request
with an unparseable `risk_profile` string is skipped by `continue` — it
produces no output record of any kind. -/
def resolveItemsFrom : Nat → List BatchItem → List Resolved
  | _, [] => []
  | i, BatchItem.nondict :: rest => resolveItemsFrom (i + 1) rest
  | i, BatchItem.obj p :: rest =>
    let pid := orStr p.patient_id p.idKey ("Patient-" ++ toString (i + 1))
    match p.risk_profile with
    | ProfilePayload.pdict pr =>
      (pid, pr, p.feasibility_options.get) :: resolveItemsFrom (i + 1) rest
    | ProfilePayload.pstr (some pr) =>
      (pid, pr, p.feasibility_options.get) :: resolveItemsFrom (i + 1) rest
    | ProfilePayload.pstr none => resolveItemsFrom (i + 1) rest
    | ProfilePayload.pmissing => resolveItemsFrom (i + 1) rest

/-- Ordering used to model the stable `resolved.sort(key=lambda item:
-_get_risk_score(item[1]))` (lines 404-408): descending risk score, ties
broken by original position.  A stable sort by a key is exactly a sort by
the pair (key, original index). -/
def riskRel (a b : Nat × Resolved) : Prop :=
  _get_risk_score b.2.2.1 < _get_risk_score a.2.2.1 ∨
    (_get_risk_score a.2.2.1 = _get_risk_score b.2.2.1 ∧ a.1 ≤ b.1)

instance : DecidableRel riskRel := fun a b => by
  unfold riskRel; exact inferInstance

instance : IsTotal (Nat × Resolved) riskRel := by
  constructor
  intro a b
  rcases lt_trichotomy (_get_risk_score a.2.2.1) (_get_risk_score b.2.2.1) with h | h | h
  · exact Or.inr (Or.inl h)
  · rcases Nat.le_total a.1 b.1 with h' | h'
    · exact Or.inl (Or.inr ⟨h, h'⟩)
    · exact Or.inr (Or.inr ⟨h.symm, h'⟩)
  · exact Or.inl (Or.inl h)

instance : IsTrans (Nat × Resolved) riskRel := by
  constructor
  intro a b c hab hbc
  rcases hab with hab | ⟨hab, hab'⟩
  · rcases hbc with hbc | ⟨hbc, _⟩
    · exact Or.inl (lt_trans hbc hab)
    · exact Or.inl (hbc ▸ hab)
  · rcases hbc with hbc | ⟨hbc, hbc'⟩
    · exact Or.inl (hab ▸ hbc)
    · exact Or.inr ⟨hab.trans hbc, hab'.trans hbc'⟩

/-- The processing order of the batch loop: Python's stable descending
sort. -/
def sortByRisk (l : List Resolved) : List Resolved :=
  (l.enum.insertionSort riskRel).map Prod.snd

/-- `pair(o)` (lines 419-420): the `(nurse, room)` key of an option. -/
def pairOf (o : AllocOption) : String × String :=
  (orStr o.nurse_name o.nurse "Unknown", orStr o.room_id o.room "Unknown")

/-- `int(opt.get("nurse_load") or opt.get("current_load") or 0)`. -/
def orInt (a b : Option Int) (dflt : Int) : Int :=
  match intTruthy a with
  | some n => n
  | none => (intTruthy b).getD dflt

/-- `opt.get("certifications") or opt.get("certs") or []`. -/
def orList (a b : Option (List String)) : List String :=
  match listTruthy a with
  | some l => l
  | none => (listTruthy b).getD []

/-- Greedy score of one option (lines 437-448): room fit + load +
certification match. -/
def scoreOption (risk_cat : String) (o : AllocOption) : ℚ :=
  _room_match_score risk_cat (orStr o.room_type none "General") +
    _load_score (orInt o.nurse_load o.current_load 0) +
    _cert_match_score ((RISK_CATEGORY_REQUIRED_CERTS risk_cat).getD DEFAULT_REQUIRED_CERTS)
      (orList o.certifications o.certs)

/-- `scored.sort(key=lambda x: -x[0])`: descending by score. -/
def scoreGe (a b : ℚ × AllocOption) : Prop := b.1 ≤ a.1

instance : DecidableRel scoreGe := fun a b => by
  unfold scoreGe; exact inferInstance

/-- Body of the serial-dictatorship loop (lines 413-467) for one resolved
request, threading the `used_pairs` set (modelled as a list) and the
output list. -/
def batchStep (st : List (String × String) × List FinalAllocationOutput) (t : Resolved) :
    List (String × String) × List FinalAllocationOutput :=
  let risk_cat := _get_risk_category t.2.1
  let risk_score := _get_risk_score t.2.1
  let dur := _get_duration_of_stay t.2.1
  let available := t.2.2.filter (fun o => decide (pairOf o ∉ st.1))
  if available = [] then
    let alloc : FinalAllocationOutput :=
      { patient_id := t.1,
        status := AllocStatus.waitlisted,
        risk_score := risk_score,
        risk_category := risk_cat,
        waitlist_position := some (_waitlist_position_from_score risk_score),
        duration_of_stay := dur }
    (st.1, st.2 ++ [alloc])
  else
    let scored := available.map (fun o => (scoreOption risk_cat o, o))
    let best := ((scored.insertionSort scoreGe).headD (0, {})).2
    let nurse_name := orStr best.nurse_name best.nurse "Unknown"
    let room_id := orStr best.room_id best.room "Unknown"
    let alloc : FinalAllocationOutput :=
      { patient_id := t.1,
        status := AllocStatus.assigned,
        risk_score := risk_score,
        risk_category := risk_cat,
        room_id := some room_id,
        nurse_name := some nurse_name,
        nurse_check_schedule := some (_build_nurse_check_schedule nurse_name available),
        duration_of_stay := dur }
    (st.1 ++ [(nurse_name, room_id)], st.2 ++ [alloc])

/-- `for alloc, rounds in zip(assigned, rounds_per): alloc.nurse_rounds =
rounds` (lines 473-474): the in-place object mutation is modelled by
rebuilding the allocation list, giving the i-th assigned element the i-th
round list (and leaving the rest as `zip` truncation would). -/
def attachRoundsGo :
    List FinalAllocationOutput → List (List NurseCheckRound) → List FinalAllocationOutput
  | [], _ => []
  | a :: as, rs =>
    if a.status = AllocStatus.assigned then
      match rs with
      | r :: rs' => { a with nurse_rounds := some r } :: attachRoundsGo as rs'
      | [] => a :: attachRoundsGo as []
    else a :: attachRoundsGo as rs

/-- Lines 469-474: attach conflict-free nurse rounds to the assigned
allocations. -/
def attachRounds (allocs : List FinalAllocationOutput) : List FinalAllocationOutput :=
  let assigned := allocs.filter (fun a => decide (a.status = AllocStatus.assigned))
  if assigned = [] then allocs
  else attachRoundsGo allocs (_build_conflict_free_nurse_rounds assigned)

/-- `GreedyAllocationBatchTool._run(patients_json)` (lines 355-477), from
the decoded patients array on: resolve, sort by descending risk, allocate
serially, then attach nurse rounds.  The surrounding JSON decode of the
top-level string (whose failure aborts the whole call before any of this
runs) is outside the embedding. -/
def batchRun (patients : List BatchItem) : List FinalAllocationOutput :=
  if patients = [] then []
  else attachRounds ((sortByRisk (resolveItemsFrom 0 patients)).foldl batchStep ([], [])).2

/-- C4: batch allocation processes requests in descending risk-score
order, and requests with equal risk scores are processed in their original
submission order (the sort is stable).  Stated on the index-tagged sort
that `sortByRisk` (the processing order of `batchRun`'s fold) is defined
from: along the sorted sequence scores are non-increasing, equal scores
appear in strictly increasing original position, and the processed
requests are a permutation of the resolved ones. -/
theorem batch_processes_by_descending_risk :
    ∀ (patients : List BatchItem),
      ((resolveItemsFrom 0 patients).enum.insertionSort riskRel).Pairwise
        (fun a b => _get_risk_score b.2.2.1 ≤ _get_risk_score a.2.2.1 ∧
          (_get_risk_score a.2.2.1 = _get_risk_score b.2.2.1 → a.1 < b.1)) ∧
      sortByRisk (resolveItemsFrom 0 patients) =
        ((resolveItemsFrom 0 patients).enum.insertionSort riskRel).map Prod.snd ∧
      (sortByRisk (resolveItemsFrom 0 patients)).Perm (resolveItemsFrom 0 patients) := by
  intro patients
  have hsorted : List.Sorted riskRel
      ((resolveItemsFrom 0 patients).enum.insertionSort riskRel) :=
    List.sorted_insertionSort riskRel _
  have hperm : ((resolveItemsFrom 0 patients).enum.insertionSort riskRel).Perm
      (resolveItemsFrom 0 patients).enum :=
    List.perm_insertionSort riskRel _
  have hnodup : ((resolveItemsFrom 0 patients).enum.insertionSort riskRel).Pairwise
      (fun a b => a.1 ≠ b.1) := by
    have h1 : (((resolveItemsFrom 0 patients).enum.insertionSort riskRel).map
        Prod.fst).Nodup := by
      have := (hperm.map Prod.fst).nodup_iff
      rw [this, List.enum_map_fst]
      exact List.nodup_range _
    rw [List.Nodup, List.pairwise_map] at h1
    exact h1
  refine ⟨?_, rfl, ?_⟩
  · have hand := List.Pairwise.and hsorted hnodup
    refine hand.imp ?_
    rintro a b ⟨hr, hne⟩
    rcases hr with hr | ⟨hr, hle⟩
    · exact ⟨le_of_lt hr, fun heq => absurd (heq ▸ hr) (lt_irrefl _)⟩
    · exact ⟨le_of_eq hr.symm, fun _ => lt_of_le_of_ne hle hne⟩
  · have := hperm.map Prod.snd
    rwa [List.enum_map_snd] at this

/-! ### C5: no `(nurse, room)` pair is used twice in one batch -/

/-- Distinct `(nurse_name, room_id)` pairs between two assigned
allocations. -/
def DistinctPair (a b : FinalAllocationOutput) : Prop :=
  a.status = AllocStatus.assigned → b.status = AllocStatus.assigned →
    ¬(a.nurse_name = b.nurse_name ∧ a.room_id = b.room_id)

/-- Invariant of the serial-dictatorship fold: every assigned allocation
carries a `(nurse, room)` pair recorded in `used_pairs`, and all emitted
allocations have pairwise distinct pairs. -/
def BatchInv (st : List (String × String) × List FinalAllocationOutput) : Prop :=
  (∀ a ∈ st.2, a.status = AllocStatus.assigned →
    ∃ nn rid, a.nurse_name = some nn ∧ a.room_id = some rid ∧ (nn, rid) ∈ st.1) ∧
  st.2.Pairwise DistinctPair

lemma headD_mem {α : Type} (l : List α) (d : α) (h : l ≠ []) : l.headD d ∈ l := by
  cases l with
  | nil => exact absurd rfl h
  | cons x xs => exact List.mem_cons_self _ _

lemma batchStep_inv (t : Resolved)
    (st : List (String × String) × List FinalAllocationOutput) (hinv : BatchInv st) :
    BatchInv (batchStep st t) := by
  obtain ⟨hused, hpair⟩ := hinv
  unfold batchStep
  by_cases hav : t.2.2.filter (fun o => decide (pairOf o ∉ st.1)) = []
  · rw [if_pos hav]
    dsimp only
    constructor
    · intro a ha hstat
      simp only [List.mem_append, List.mem_singleton] at ha
      rcases ha with ha | ha
      · exact hused a ha hstat
      · subst ha
        exact absurd hstat (by simp)
    · rw [List.pairwise_append]
      refine ⟨hpair, List.pairwise_singleton _ _, ?_⟩
      intro a _ b hb
      simp only [List.mem_singleton] at hb
      subst hb
      intro _ hstat
      exact absurd hstat (by simp [DistinctPair])
  · rw [if_neg hav]
    dsimp only
    set available := t.2.2.filter (fun o => decide (pairOf o ∉ st.1)) with haveq
    set risk_cat := _get_risk_category t.2.1 with hrc
    set scored := available.map (fun o => (scoreOption risk_cat o, o)) with hsc
    set best := ((scored.insertionSort scoreGe).headD (0, {})).2 with hbest
    have hbest_av : best ∈ available := by
      have hlen : (scored.insertionSort scoreGe).length = scored.length :=
        List.length_insertionSort _ _
      have hscne : scored ≠ [] := by
        intro h
        rw [hsc] at h
        exact hav (List.map_eq_nil_iff.mp h)
      have hsortne : scored.insertionSort scoreGe ≠ [] := by
        intro h
        apply hscne
        have := List.length_insertionSort scoreGe scored
        rw [h] at this
        exact List.length_eq_zero.mp this.symm
      have hmem : (scored.insertionSort scoreGe).headD (0, {}) ∈
          scored.insertionSort scoreGe := headD_mem _ _ hsortne
      have hmem2 : (scored.insertionSort scoreGe).headD (0, {}) ∈ scored :=
        (List.perm_insertionSort scoreGe scored).mem_iff.mp hmem
      rw [hsc] at hmem2
      obtain ⟨o, ho, heq⟩ := List.mem_map.mp hmem2
      have : o = best := by rw [hbest, ← heq]
      exact this ▸ ho
    have hbest_new : pairOf best ∉ st.1 := by
      rw [haveq] at hbest_av
      have := (List.mem_filter.mp hbest_av).2
      exact of_decide_eq_true this
    constructor
    · intro a ha hstat
      simp only [List.mem_append, List.mem_singleton] at ha
      rcases ha with ha | ha
      · obtain ⟨nn, rid, h1, h2, h3⟩ := hused a ha hstat
        exact ⟨nn, rid, h1, h2, List.mem_append_left _ h3⟩
      · subst ha
        refine ⟨orStr best.nurse_name best.nurse "Unknown",
          orStr best.room_id best.room "Unknown", rfl, rfl, ?_⟩
        exact List.mem_append_right _ (List.mem_singleton.mpr rfl)
    · rw [List.pairwise_append]
      refine ⟨hpair, List.pairwise_singleton _ _, ?_⟩
      intro a ha b hb
      simp only [List.mem_singleton] at hb
      subst hb
      intro hstata _ heq
      obtain ⟨nn, rid, h1, h2, h3⟩ := hused a ha hstata
      dsimp only at heq
      obtain ⟨heqn, heqr⟩ := heq
      rw [h1] at heqn
      rw [h2] at heqr
      have hnn : nn = orStr best.nurse_name best.nurse "Unknown" := by
        injection heqn
      have hrid : rid = orStr best.room_id best.room "Unknown" := by
        injection heqr
      apply hbest_new
      have : pairOf best = (nn, rid) := by
        rw [hnn, hrid]; rfl
      rw [this]
      exact h3

lemma foldl_batchStep_inv :
    ∀ (l : List Resolved) (st : List (String × String) × List FinalAllocationOutput),
      BatchInv st → BatchInv (l.foldl batchStep st) := by
  intro l
  induction l with
  | nil => intro st h; exact h
  | cons t rest ih => intro st h; exact ih _ (batchStep_inv t st h)

/-- Every element of `attachRoundsGo as rs` agrees with some element of
`as` on `patient_id`, `status`, `nurse_name` and `room_id`. -/
lemma attachRoundsGo_mem :
    ∀ (as : List FinalAllocationOutput) (rs : List (List NurseCheckRound))
      (b : FinalAllocationOutput), b ∈ attachRoundsGo as rs →
      ∃ a ∈ as, b.patient_id = a.patient_id ∧ b.status = a.status ∧
        b.nurse_name = a.nurse_name ∧ b.room_id = a.room_id := by
  intro as
  induction as with
  | nil => intro rs b hb; exact absurd hb (List.not_mem_nil b)
  | cons a rest ih =>
    intro rs b hb
    unfold attachRoundsGo at hb
    by_cases hstat : a.status = AllocStatus.assigned
    · rw [if_pos hstat] at hb
      cases rs with
      | nil =>
        rcases List.mem_cons.mp hb with hb | hb
        · exact ⟨a, List.mem_cons_self _ _, by rw [hb], by rw [hb], by rw [hb], by rw [hb]⟩
        · obtain ⟨a', ha', h⟩ := ih [] b hb
          exact ⟨a', List.mem_cons_of_mem _ ha', h⟩
      | cons r rs' =>
        rcases List.mem_cons.mp hb with hb | hb
        · exact ⟨a, List.mem_cons_self _ _, by rw [hb], by rw [hb], by rw [hb], by rw [hb]⟩
        · obtain ⟨a', ha', h⟩ := ih rs' b hb
          exact ⟨a', List.mem_cons_of_mem _ ha', h⟩
    · rw [if_neg hstat] at hb
      rcases List.mem_cons.mp hb with hb | hb
      · exact ⟨a, List.mem_cons_self _ _, by rw [hb], by rw [hb], by rw [hb], by rw [hb]⟩
      · obtain ⟨a', ha', h⟩ := ih rs b hb
        exact ⟨a', List.mem_cons_of_mem _ ha', h⟩

lemma attachRoundsGo_pairwise :
    ∀ (as : List FinalAllocationOutput) (rs : List (List NurseCheckRound)),
      as.Pairwise DistinctPair → (attachRoundsGo as rs).Pairwise DistinctPair := by
  intro as
  induction as with
  | nil => intro rs _; exact List.Pairwise.nil
  | cons a rest ih =>
    intro rs hp
    rw [List.pairwise_cons] at hp
    obtain ⟨hhead, htail⟩ := hp
    have hcross : ∀ (a' : FinalAllocationOutput) (rs' : List (List NurseCheckRound)),
        a'.patient_id = a.patient_id → a'.status = a.status →
        a'.nurse_name = a.nurse_name → a'.room_id = a.room_id →
        ∀ b ∈ attachRoundsGo rest rs', DistinctPair a' b := by
      intro a' rs' _ hs hn hr b hb
      obtain ⟨b0, hb0, _, hbs, hbn, hbr⟩ := attachRoundsGo_mem rest rs' b hb
      intro h1 h2
      rw [hs] at h1
      rw [hbs] at h2
      have := hhead b0 hb0 h1 h2
      intro hc
      apply this
      rw [← hn, ← hbn, ← hr, ← hbr]
      exact hc
    unfold attachRoundsGo
    by_cases hstat : a.status = AllocStatus.assigned
    · rw [if_pos hstat]
      cases rs with
      | nil =>
        rw [List.pairwise_cons]
        exact ⟨hcross a [] rfl rfl rfl rfl, ih [] htail⟩
      | cons r rs' =>
        rw [List.pairwise_cons]
        exact ⟨hcross { a with nurse_rounds := some r } rs' rfl rfl rfl rfl, ih rs' htail⟩
    · rw [if_neg hstat]
      rw [List.pairwise_cons]
      exact ⟨hcross a rs rfl rfl rfl rfl, ih rs htail⟩

/-- C5: within one batch run, no two assigned allocations in the output
share the same `(nurse_name, room_id)` pair — a pair committed to one
request is filtered out of every later request's feasible options. -/
theorem batch_never_reuses_nurse_room_pair :
    ∀ (patients : List BatchItem), (batchRun patients).Pairwise DistinctPair := by
  intro patients
  unfold batchRun
  by_cases hemp : patients = []
  · rw [if_pos hemp]
    exact List.Pairwise.nil
  · rw [if_neg hemp]
    have hinv : BatchInv (((sortByRisk (resolveItemsFrom 0 patients))).foldl
        batchStep ([], [])) :=
      foldl_batchStep_inv _ _ ⟨fun a ha => absurd ha (List.not_mem_nil a), List.Pairwise.nil⟩
    unfold attachRounds
    by_cases hass : (((sortByRisk (resolveItemsFrom 0 patients)).foldl
        batchStep ([], [])).2.filter
          (fun a => decide (a.status = AllocStatus.assigned))) = []
    · rw [if_pos hass]
      exact hinv.2
    · rw [if_neg hass]
      exact attachRoundsGo_pairwise _ _ hinv.2

/-! ### C9: handling of malformed risk-profile payloads in the batch -/

lemma attachRoundsGo_map_pid :
    ∀ (as : List FinalAllocationOutput) (rs : List (List NurseCheckRound)),
      (attachRoundsGo as rs).map (fun a => a.patient_id) =
        as.map (fun a => a.patient_id) := by
  intro as
  induction as with
  | nil => intro rs; rfl
  | cons a rest ih =>
    intro rs
    unfold attachRoundsGo
    by_cases hstat : a.status = AllocStatus.assigned
    · rw [if_pos hstat]
      cases rs with
      | nil => simp [ih]
      | cons r rs' => simp [ih]
    · rw [if_neg hstat]
      simp [ih]

lemma batchStep_map_pid (st : List (String × String) × List FinalAllocationOutput)
    (t : Resolved) :
    ((batchStep st t).2).map (fun a => a.patient_id) =
      st.2.map (fun a => a.patient_id) ++ [t.1] := by
  unfold batchStep
  by_cases hav : t.2.2.filter (fun o => decide (pairOf o ∉ st.1)) = []
  · rw [if_pos hav]; simp
  · rw [if_neg hav]; simp

lemma foldl_batchStep_map_pid :
    ∀ (l : List Resolved) (st : List (String × String) × List FinalAllocationOutput),
      ((l.foldl batchStep st).2).map (fun a => a.patient_id) =
        st.2.map (fun a => a.patient_id) ++ l.map (fun t => t.1) := by
  intro l
  induction l with
  | nil => intro st; simp
  | cons t rest ih =>
    intro st
    show ((rest.foldl batchStep (batchStep st t)).2).map (fun a => a.patient_id) = _
    rw [ih, batchStep_map_pid]
    simp

/-- C9 (amended): a request whose risk-profile payload is not parseable
JSON is silently skipped — it produces no entry of any kind in the batch
output — while the batch itself is not aborted: the output carries exactly
one allocation per well-formed request, in processing order, so every
other request still appears. -/
theorem batch_output_ids_are_resolved_ids :
    ∀ (patients : List BatchItem),
      (batchRun patients).map (fun a => a.patient_id) =
        (sortByRisk (resolveItemsFrom 0 patients)).map (fun t => t.1) := by
  intro patients
  unfold batchRun
  by_cases hemp : patients = []
  · rw [if_pos hemp]
    subst hemp
    rfl
  · rw [if_neg hemp]
    unfold attachRounds
    by_cases hass : (((sortByRisk (resolveItemsFrom 0 patients)).foldl
        batchStep ([], [])).2.filter
          (fun a => decide (a.status = AllocStatus.assigned))) = []
    · rw [if_pos hass, foldl_batchStep_map_pid]
      simp
    · rw [if_neg hass, attachRoundsGo_map_pid, foldl_batchStep_map_pid]
      simp

/-- A two-request batch whose first request has an unparseable
`risk_profile` JSON string. -/
def c9batch : List BatchItem :=
  [BatchItem.obj { patient_id := some "P1", risk_profile := ProfilePayload.pstr none },
   BatchItem.obj { patient_id := some "P2", risk_profile := ProfilePayload.pdict {} }]

/-- C9 (counterexample to the claim as stated): the request `P1` with a
malformed risk-profile payload is not reported as a structured error — the
batch output, the run's only per-request output, contains no entry for
`P1` at all, only the well-formed `P2`. -/
theorem malformed_profile_silently_dropped :
    (batchRun c9batch).map (fun a => a.patient_id) = ["P2"] := by
  rfl

/-! ### C2: the cross-request rotation builder can double-book a nurse

`_build_conflict_free_nurse_rounds` promises (docstring line 129: "no
nurse used twice in the same round"; comment line 144: "no double-book")
that rounds are conflict-free across the batch, but its fallback
`nurse = nurses[0]` (lines 161-162) assigns an already-used nurse whenever
every nurse of a patient's pool is taken in that round. -/

lemma parse_four_hours : _parse_duration_to_hours (some "4 hours") = 4 := by
  have h1 : searchFrom (matchNumPair ['d', 'a', 'y'])
      (pyLower (pyStrip "4 hours".toList)) = none := by decide
  have h2 : searchFrom (matchNumSingle ['d', 'a', 'y'])
      (pyLower (pyStrip "4 hours".toList)) = none := by decide
  have h3 : searchFrom (matchNumPair ['h', 'o', 'u', 'r'])
      (pyLower (pyStrip "4 hours".toList)) = none := by decide
  have h4 : searchFrom (matchNumSingle ['h', 'o', 'u', 'r'])
      (pyLower (pyStrip "4 hours".toList)) = some 4 := by decide
  show (match searchFrom (matchNumPair ['d', 'a', 'y'])
      (pyLower (pyStrip "4 hours".toList)) with
    | some (lo, hi) => (lo + hi) / 2 * 24
    | none =>
      match searchFrom (matchNumSingle ['d', 'a', 'y'])
          (pyLower (pyStrip "4 hours".toList)) with
      | some n => n * 24
      | none =>
        match searchFrom (matchNumPair ['h', 'o', 'u', 'r'])
            (pyLower (pyStrip "4 hours".toList)) with
        | some (lo, hi) => (lo + hi) / 2
        | none =>
          match searchFrom (matchNumSingle ['h', 'o', 'u', 'r'])
              (pyLower (pyStrip "4 hours".toList)) with
          | some n => n
          | none => 72) = (4 : ℚ)
  rw [h1, h2, h3, h4]

/-- Two assigned allocations whose rotation pools both consist of the
single nurse `"X"` (as produced when `"X"` is the only feasible nurse for
both patients), with a 4-hour stay (one rotation round each). -/
def c2allocs : List FinalAllocationOutput :=
  [{ patient_id := "PA",
     status := AllocStatus.assigned,
     risk_score := 1,
     room_id := some "R1",
     nurse_name := some "X",
     nurse_check_schedule := some { nurse_names := ["X"] },
     duration_of_stay := some "4 hours" },
   { patient_id := "PB",
     status := AllocStatus.assigned,
     risk_score := 1,
     room_id := some "R2",
     nurse_name := some "X",
     nurse_check_schedule := some { nurse_names := ["X"] },
     duration_of_stay := some "4 hours" }]

/-- C2 (the code at the failing input): on two assigned requests whose
pools both contain only nurse `"X"`, `_build_conflict_free_nurse_rounds`
gives `"X"` the round `[0, 0.5)` for **both** patients — the same staff
name holds two overlapping rounds in the jointly built schedule,
contradicting the claim (and the function's own docstring). -/
theorem conflict_free_rounds_double_books :
    _build_conflict_free_nurse_rounds c2allocs =
      [[{ nurse := "X", start := 0, stop := 1 / 2 }],
       [{ nurse := "X", start := 0, stop := 1 / 2 }]] ∧
    ((0 : ℚ) < 1 / 2 ∧ (0 : ℚ) < 1 / 2) := by
  refine ⟨?_, by norm_num, by norm_num⟩
  have hfilter : c2allocs.filter
      (fun a => decide (a.status = AllocStatus.assigned) && a.nurse_check_schedule.isSome) =
      c2allocs := by decide
  have hne : c2allocs ≠ [] := by decide
  simp only [_build_conflict_free_nurse_rounds, hfilter, if_neg hne]
  have hfold : c2allocs.foldl
      (fun m a =>
        max m (max 1 (truncQ (_parse_duration_to_hours a.duration_of_stay / 4)).toNat)) 0 = 1 := by
    simp only [List.foldl, c2allocs, parse_four_hours]
    norm_num [truncQ]
  rw [hfold]
  have hrange : List.range 1 = [0] := by simp [List.range_succ]
  simp only [hrange, List.foldl, c2allocs, List.map]
  norm_num [roundStepGo, nursesOf, pickNurseInRound, List.findSome?, List.range_succ,
    List.range_zero, List.getD, orStr, orStrOpt, strTruthy]

end Hosp
